import Mathlib

/-!
Verification of the core logic of the Bogleheads lazy-portfolio simulator
(src/app.py, src/csv_data_reader.py, src/portfolio_definitions.py).

The Python code works on pandas DataFrames indexed by timestamps.  The
embedding models a timestamp as a calendar date (year, month, day of natural
numbers, compared lexicographically, exactly how pandas compares timestamps of
distinct calendar days), money and returns as exact rationals, and a
date-indexed series as a list of (date, value) pairs in index order.
-/

/-- Calendar date: the part of a pandas `Timestamp` the simulator inspects.
Real timestamps always satisfy `1 ≤ m ∧ m ≤ 12 ∧ 1 ≤ d`. -/
structure Date where
  y : Nat
  m : Nat
  d : Nat
deriving DecidableEq

instance : Inhabited Date := ⟨⟨0, 0, 0⟩⟩

/-- Lexicographic comparison of dates, as pandas compares timestamps. -/
def dateLe (a b : Date) : Bool :=
  decide (a.y < b.y) ||
    (decide (a.y = b.y) &&
      (decide (a.m < b.m) || (decide (a.m = b.m) && decide (a.d ≤ b.d))))

/-- Strict comparison, `a < b` on timestamps. -/
def dateLt (a b : Date) : Bool := !(dateLe b a)

/-- Month counter: months since year 0, so that consecutive calendar months
have consecutive indices (`monthIdx ⟨y, m, d⟩ = y*12 + (m-1)` for valid months). -/
def monthIdx (a : Date) : Nat := a.y * 12 + (a.m - 1)

/-- First day of the calendar month with month counter `k`. -/
def firstOfIdx (k : Nat) : Date := ⟨k / 12, k % 12 + 1, 1⟩

/-- The code of `simulate_growth` (src/app.py lines 54-59) computes the first
day of the month after `dte`, with an explicit December wrap-around. -/
def nextMonthStart (dte : Date) : Date :=
  if dte.m = 12 then ⟨dte.y + 1, 1, 1⟩ else ⟨dte.y, dte.m + 1, 1⟩

/-- The code adds `pd.DateOffset(months=1)` to first-of-month timestamps
(src/app.py lines 64 and 72); on such timestamps this keeps the day and
advances the month, wrapping December. -/
def plusOneMonth (dte : Date) : Date :=
  if dte.m = 12 then ⟨dte.y + 1, 1, dte.d⟩ else ⟨dte.y, dte.m + 1, dte.d⟩

/-- A date-indexed series of rational values (one pandas column). -/
abbrev Series := List (Date × ℚ)

/-- One iteration body of the contribution loop of `simulate_growth`
(src/app.py lines 61-69): among the index dates falling in the calendar month
with counter `k` (the interval `[firstOfIdx k, firstOfIdx (k+1))`, which the
code writes as `[next_month, next_month + DateOffset(months=1))`), the
earliest receives the monthly contribution, unless it is the first index date
(src/app.py line 68). -/
def windowAssign (dates : List Date) (firstD : Date) (k : Nat) : List Date :=
  match (dates.filter fun dd =>
      dateLe (firstOfIdx k) dd && dateLt dd (firstOfIdx (k + 1))).head? with
  | some d0 => if d0 = firstD then [] else [d0]
  | none => []

/-- Structural form of the `while current_date <= end_date` loop of
`simulate_growth` (src/app.py lines 53-72) from its second iteration on:
there `current_date = firstOfIdx k`, the examined month is `k + 1`, and the
loop steps `current_date` to `firstOfIdx (k + 2)`
(`next_month + DateOffset(months=1)`).  The extra `Nat` argument is fuel for
structural recursion only: the guard `firstOfIdx k ≤ endD` forces
`k ≤ 12 * endD.y + 11`, so with the fuel chosen by `monthLoop` the base case
is reached only when the guard is false anyway (`monthLoop_unfold` proves the
function satisfies exactly the loop's defining equation). -/
def monthLoopAux (dates : List Date) (firstD endD : Date) :
    Nat → Nat → List Date
  | 0, _ => []
  | n + 1, k =>
    if dateLe (firstOfIdx k) endD = true then
      windowAssign dates firstD (k + 1) ++ monthLoopAux dates firstD endD n (k + 2)
    else []

/-- The loop of src/app.py lines 53-72 entered at `current_date = firstOfIdx k`. -/
def monthLoop (dates : List Date) (firstD endD : Date) (k : Nat) : List Date :=
  monthLoopAux dates firstD endD (12 * endD.y + 12 - k) k

/-- All dates that receive the monthly contribution in `simulate_growth`
(src/app.py lines 49-72).  The first loop iteration runs with
`current_date = firstD` (so its guard is `firstD ≤ endD` and it examines the
month after `firstD`); every later iteration has `current_date` equal to a
first-of-month timestamp and is `monthLoop`. -/
def scheduledDates (dates : List Date) (firstD endD : Date) : List Date :=
  if dateLe firstD endD = true then
    windowAssign dates firstD (monthIdx firstD + 1) ++
      monthLoop dates firstD endD (monthIdx firstD + 2)
  else []

/-- Running sum with accumulator, modelling `Series.cumsum()`. -/
def cumsumAux (acc : ℚ) : List ℚ → List ℚ
  | [] => []
  | x :: t => (acc + x) :: cumsumAux (acc + x) t

/-- The pandas `cumsum` of a column (src/app.py line 75). -/
def cumsum (l : List ℚ) : List ℚ := cumsumAux 0 l

/-- The value-accumulation loop of `simulate_growth` (src/app.py lines 81-88)
for indices `i > 0`: the previous value grows by the day's return, then the
day's contribution is added. -/
def valueScan (prev : ℚ) : List (ℚ × ℚ) → List ℚ
  | [] => []
  | rc :: t =>
    (prev * (1 + rc.1) + rc.2) :: valueScan (prev * (1 + rc.1) + rc.2) t

/-- The growth trajectory DataFrame built by `simulate_growth`
(columns of src/app.py lines 42-88). -/
structure Trajectory where
  dates : List Date
  returns : List ℚ
  contribution : List ℚ
  cumulative_contribution : List ℚ
  portfolio_value : List ℚ
deriving DecidableEq

/-- Result of `simulate_growth`.  `missingData` is the code's `return None`
for `portfolio_data is None` (src/app.py lines 35-36); `indexError` models the
uncaught `IndexError` that `investments.iloc[0, ...]` (src/app.py line 47)
raises on a zero-row frame; `emptySeries` is the structured error the spec
posits for that case — the code never produces it. -/
inductive SimResult where
  | missingData : SimResult
  | indexError : SimResult
  | emptySeries : SimResult
  | ok : Trajectory → SimResult
deriving DecidableEq

/-- Embedding of `simulate_growth` (src/app.py lines 33-90).  The input is
the `portfolio_return` column of `get_portfolio_data` (or `None`).  Only the
first index date receives the initial investment (`iloc[0]`, line 47); later
rows receive the monthly contribution exactly when their date is scheduled;
the value column starts at the initial investment and is accumulated by
`valueScan`. -/
def simulate_growth (portfolio_data : Option Series)
    (initial_investment monthly_contribution : ℚ) : SimResult :=
  match portfolio_data with
  | none => SimResult.missingData
  | some [] => SimResult.indexError
  | some ((d0, r0) :: rest) =>
    let dates := d0 :: rest.map Prod.fst
    let endD := dates.getLastD d0
    let sched := scheduledDates dates d0 endD
    let contribTail := rest.map fun p =>
      if p.1 ∈ sched then monthly_contribution else 0
    let contribution := initial_investment :: contribTail
    SimResult.ok
      { dates := dates
        returns := r0 :: rest.map Prod.snd
        contribution := contribution
        cumulative_contribution := cumsum contribution
        portfolio_value := initial_investment ::
          valueScan initial_investment ((rest.map Prod.snd).zip contribTail) }

/-! ## Portfolio return aggregation (src/csv_data_reader.py) -/

/-- The weighted column `ticker_data['daily_return'] * weight`
(src/csv_data_reader.py line 111). -/
def weightedCol (w : ℚ) (s : Series) : Series :=
  s.map fun p => (p.1, p.2 * w)

/-- Label lookup of a date in a series (the right side of a pandas left
join; series dates are unique per the data model, so the first match is the
value). `none` models the NaN a left join places on a missing label. -/
def lookupDate (s : Series) (dte : Date) : Option ℚ :=
  (s.find? fun p => decide (p.1 = dte)).map Prod.snd

/-- A DataFrame accumulated by `get_portfolio_data`: the date index together
with one `Option` value per joined weighted column (`none` = NaN). -/
abbrev Frame := List (Date × List (Option ℚ))

/-- One pandas left join `result = result.join(ticker_data[[...]])`
(src/csv_data_reader.py line 117): the index of the left frame is kept and
the new column is looked up by label. -/
def joinCol (acc : Frame) (col : Series) : Frame :=
  acc.map fun row => (row.1, row.2 ++ [lookupDate col row.1])

/-- One iteration of the ticker loop of `get_portfolio_data`
(src/csv_data_reader.py lines 102-117): a ticker whose data is unavailable is
skipped; the first available ticker becomes the result frame; later available
tickers are left-joined. -/
def aggStep (provider : String → Option Series) (acc : Option Frame)
    (tw : String × ℚ) : Option Frame :=
  match provider tw.1 with
  | none => acc
  | some ticker_data =>
    let col := weightedCol tw.2 ticker_data
    match acc with
    | none => some (col.map fun p => (p.1, [some p.2]))
    | some a => some (joinCol a col)

/-- Embedding of `get_portfolio_data` (src/csv_data_reader.py lines 79-128)
up to the construction of the joined weighted-column frame; `none` is the
code's `return None` when no ticker yielded data.  The `provider` argument
stands for `get_ticker_data_for_period` restricted to the requested range. -/
def get_portfolio_data (portfolio : List (String × ℚ))
    (provider : String → Option Series) : Option Frame :=
  portfolio.foldl (aggStep provider) none

/-- Row sum `result.filter(like='_weighted').sum(axis=1)`
(src/csv_data_reader.py line 123); pandas sums with `skipna=True`, so a NaN
entry contributes 0. -/
def sumOpt (vs : List (Option ℚ)) : ℚ :=
  (vs.map fun o => o.getD 0).sum

/-- The `portfolio_return` column (src/csv_data_reader.py line 123). -/
def portfolio_return (f : Frame) : List ℚ :=
  f.map fun row => sumOpt row.2

/-- Running product of `(1 + r)` with accumulator, modelling
`(1 + series).cumprod()`. -/
def cumprodAux (acc : ℚ) : List ℚ → List ℚ
  | [] => []
  | r :: t => (acc * (1 + r)) :: cumprodAux (acc * (1 + r)) t

/-- The `cumulative_return` column
`(1 + result['portfolio_return']).cumprod() * 100`
(src/csv_data_reader.py line 126). -/
def cumulative_return (f : Frame) : List ℚ :=
  (cumprodAux 1 (portfolio_return f)).map (· * 100)

/-! ## Statistics (src/app.py lines 340-345) -/

/-- Mean of the daily-return column, `returns.mean()` (src/app.py line 342). -/
def mean (rs : List ℚ) : ℚ := rs.sum / rs.length

/-- Annualized return `((1 + returns.mean()) ** 252) - 1` (src/app.py line 342). -/
def annual_return (rs : List ℚ) : ℚ := (1 + mean rs) ^ 252 - 1

/-- Sample variance with `ddof = 1`, the default of pandas `Series.std`
(src/app.py line 343); `none` models the NaN pandas returns for fewer than two
observations. -/
def sampleVar (rs : List ℚ) : Option ℚ :=
  if 2 ≤ rs.length then
    some ((rs.map fun x => (x - mean rs) ^ 2).sum / (rs.length - 1))
  else none

/-- Annualized risk `returns.std() * np.sqrt(252)` (src/app.py line 343);
NaN (`none`) propagates. -/
noncomputable def annual_risk (rs : List ℚ) : Option ℝ :=
  (sampleVar rs).map fun v => Real.sqrt (v : ℝ) * Real.sqrt 252

open Classical in
/-- The Sharpe-like ratio
`annual_return / annual_risk if annual_risk != 0 else 0` (src/app.py
line 344).  When `annual_risk` is NaN, Python's `NaN != 0` is true and the
division yields NaN again, so `none` propagates. -/
noncomputable def sharpe (rs : List ℚ) : Option ℝ :=
  match annual_risk rs with
  | none => none
  | some risk =>
    if risk = 0 then some 0 else some ((annual_return rs : ℝ) / risk)

/-! ## Maximum drawdown (src/app.py line 345) -/

/-- Running maximum with accumulator, tail of `Series.cummax()`. -/
def cummaxAux (acc : ℚ) : List ℚ → List ℚ
  | [] => []
  | x :: t => max acc x :: cummaxAux (max acc x) t

/-- The pandas `cummax` of a column. -/
def cummax (l : List ℚ) : List ℚ :=
  match l with
  | [] => []
  | x :: t => x :: cummaxAux x t

/-- The elementwise series `cumulative_return / cumulative_return.cummax() - 1`
(src/app.py line 345). -/
def drawdowns (cum : List ℚ) : List ℚ :=
  List.zipWith (fun c mx => c / mx - 1) cum (cummax cum)

/-- Minimum of a column as pandas `.min()`: NaN (`none`) on an empty series. -/
def listMin (l : List ℚ) : Option ℚ :=
  match l with
  | [] => none
  | x :: t => some (t.foldl min x)

/-- The statistic `(cum / cum.cummax() - 1).min()` (src/app.py line 345). -/
def max_drawdown (cum : List ℚ) : Option ℚ := listMin (drawdowns cum)

/-! ## Static portfolio catalog (src/portfolio_definitions.py lines 17-37) -/

/-- The `portfolios` dictionary, with the decimal weights read as exact
rationals. -/
def portfolios : List (String × List (String × ℚ)) :=
  [("Two-fund Portfolio", [("VT", 60/100), ("BND", 40/100)]),
   ("Taylor Larimore\x27s Three-Fund Portfolio",
     [("VTI", 34/100), ("VXUS", 33/100), ("BND", 33/100)]),
   ("Scott Burns\x27 Margarita Portfolio",
     [("ITOT", 34/100), ("IXUS", 33/100), ("TIP", 33/100)]),
   ("Rick Ferri\x27s Lazy Three-Fund Portfolio",
     [("VTI", 40/100), ("VXUS", 20/100), ("BND", 40/100)])]

/-- A 13-calendar-month series with exactly one trading date per month
(the 15th), zero returns: the scenario of the spec. -/
def rows13 : Series :=
  [(⟨2020, 1, 15⟩, 0), (⟨2020, 2, 15⟩, 0), (⟨2020, 3, 15⟩, 0),
   (⟨2020, 4, 15⟩, 0), (⟨2020, 5, 15⟩, 0), (⟨2020, 6, 15⟩, 0),
   (⟨2020, 7, 15⟩, 0), (⟨2020, 8, 15⟩, 0), (⟨2020, 9, 15⟩, 0),
   (⟨2020, 10, 15⟩, 0), (⟨2020, 11, 15⟩, 0), (⟨2020, 12, 15⟩, 0),
   (⟨2021, 1, 15⟩, 0)]

/-- The contribution column of a simulation result (empty on failure). -/
def contribOf : SimResult → List ℚ
  | SimResult.ok t => t.contribution
  | _ => []

/-- The cumulative-contribution column of a simulation result. -/
def cumContribOf : SimResult → List ℚ
  | SimResult.ok t => t.cumulative_contribution
  | _ => []

/-- The weighted columns of the available tickers of a portfolio tail, in
order: the columns that `get_portfolio_data` joins after the first available
ticker seeded the result frame. -/
def availCols (l : List (String × ℚ)) (provider : String → Option Series) :
    List Series :=
  l.filterMap fun tw => (provider tw.1).map (weightedCol tw.2)

/-- Sequential left joins of a list of columns onto a frame. -/
def joinAll (a : Frame) (cols : List Series) : Frame :=
  cols.foldl joinCol a

/-- The date index of an aggregation result (empty on failure). -/
def datesOf (r : Option Frame) : List Date :=
  (r.getD []).map Prod.fst

/-- Concrete two-date series for ticker A (dates Jan 2 and Jan 3, 2020). -/
def seriesA : Series := [(⟨2020, 1, 2⟩, 1/100), (⟨2020, 1, 3⟩, 1/100)]

/-- Concrete series for ticker B with a date (Jan 4, 2020) absent from A. -/
def seriesB : Series := [(⟨2020, 1, 2⟩, 1/100), (⟨2020, 1, 4⟩, 1/100)]

/-- A concrete price-series provider supplying exactly the tickers A and B. -/
def provCE : String → Option Series := fun t =>
  if t = "A" then some seriesA else if t = "B" then some seriesB else none

/-- A concrete two-ticker portfolio over `provCE`. -/
def pCE : List (String × ℚ) := [("A", 1/2), ("B", 1/2)]

/-- A one-ticker provider for the cumulative-return witness. -/
def provW : String → Option Series := fun t =>
  if t = "A" then some [(⟨2020, 1, 2⟩, 1/100)] else none

/-- The frame `get_portfolio_data [("A", 1)] provW` evaluates to. -/
def fW : Frame := [(⟨2020, 1, 2⟩, [some ((1 : ℚ)/100 * 1)])]

/-! ## Helper lemmas -/

/-- For valid months the code's explicit December branch computes exactly the
first day of the following month counter. -/
lemma nextMonthStart_eq (dte : Date) (h1 : 1 ≤ dte.m) (h2 : dte.m ≤ 12) :
    nextMonthStart dte = firstOfIdx (monthIdx dte + 1) := by
  rcases dte with ⟨y, m, d⟩
  simp only [nextMonthStart, monthIdx, firstOfIdx] at *
  split
  · next hm => simp only [Date.mk.injEq]; refine ⟨?_, ?_, trivial⟩ <;> omega
  · next hm => simp only [Date.mk.injEq]; refine ⟨?_, ?_, trivial⟩ <;> omega

/-- Adding one month to a first-of-month timestamp advances the month
counter by one. -/
lemma plusOneMonth_firstOfIdx (k : Nat) :
    plusOneMonth (firstOfIdx k) = firstOfIdx (k + 1) := by
  simp only [plusOneMonth, firstOfIdx]
  split
  · next hm => simp only [Date.mk.injEq]; refine ⟨?_, ?_, trivial⟩ <;> omega
  · next hm => simp only [Date.mk.injEq]; refine ⟨?_, ?_, trivial⟩ <;> omega

/-- When the month counter is past the end date's year, the loop guard is
false. -/
lemma dateLe_firstOfIdx_false (endD : Date) (k : Nat)
    (hk : 12 * endD.y + 12 ≤ k) : dateLe (firstOfIdx k) endD = false := by
  simp only [dateLe, firstOfIdx, Bool.or_eq_false_iff, Bool.and_eq_false_iff,
    decide_eq_false_iff_not, not_lt]
  constructor
  · omega
  · left; omega

/-- Any sufficient fuel computes the same loop result. -/
lemma monthLoopAux_congr (dates : List Date) (firstD endD : Date) :
    ∀ n m k, 12 * endD.y + 12 - k ≤ n → 12 * endD.y + 12 - k ≤ m →
      monthLoopAux dates firstD endD n k = monthLoopAux dates firstD endD m k := by
  intro n
  induction n with
  | zero =>
    intro m k hn hm
    cases m with
    | zero => rfl
    | succ m' =>
      simp only [monthLoopAux]
      rw [dateLe_firstOfIdx_false endD k (by omega)]
      simp
  | succ n' ih =>
    intro m k hn hm
    cases m with
    | zero =>
      simp only [monthLoopAux]
      rw [dateLe_firstOfIdx_false endD k (by omega)]
      simp
    | succ m' =>
      simp only [monthLoopAux]
      by_cases hg : dateLe (firstOfIdx k) endD = true
      · rw [hg]
        simp only [if_true]
        rw [ih m' (k + 2) (by omega) (by omega)]
      · rw [Bool.of_not_eq_true hg]
        simp

/-- The fueled loop satisfies exactly the defining equation of the
`while` loop of src/app.py lines 53-72. -/
lemma monthLoop_unfold (dates : List Date) (firstD endD : Date) (k : Nat) :
    monthLoop dates firstD endD k =
      if dateLe (firstOfIdx k) endD = true then
        windowAssign dates firstD (k + 1) ++ monthLoop dates firstD endD (k + 2)
      else [] := by
  unfold monthLoop
  rcases hn : 12 * endD.y + 12 - k with _ | n
  · rw [dateLe_firstOfIdx_false endD k (by omega)]
    simp [monthLoopAux]
  · simp only [monthLoopAux]
    by_cases hg : dateLe (firstOfIdx k) endD = true
    · rw [hg]
      simp only [if_true]
      rw [monthLoopAux_congr dates firstD endD n (12 * endD.y + 12 - (k + 2))
        (k + 2) (by omega) (by omega)]
    · rw [Bool.of_not_eq_true hg]
      simp

lemma valueScan_length (l : List (ℚ × ℚ)) (prev : ℚ) :
    (valueScan prev l).length = l.length := by
  induction l generalizing prev with
  | nil => rfl
  | cons rc t ih => simp [valueScan, ih]

lemma getD_zip (a b : List ℚ) (i : Nat) (ha : i < a.length) (hb : i < b.length) :
    (a.zip b).getD i (0, 0) = (a.getD i 0, b.getD i 0) := by
  induction a generalizing b i with
  | nil => simp at ha
  | cons x xs ih =>
    cases b with
    | nil => simp at hb
    | cons y ys =>
      cases i with
      | zero => rfl
      | succ j =>
        simpa using ih ys j (by simpa using ha) (by simpa using hb)

/-- The scan satisfies the source's row-by-row recurrence. -/
lemma valueScan_getD (l : List (ℚ × ℚ)) (prev : ℚ) (i : Nat) (h : i < l.length) :
    (valueScan prev l).getD i 0 =
      (prev :: valueScan prev l).getD i 0 * (1 + (l.getD i (0, 0)).1) +
        (l.getD i (0, 0)).2 := by
  induction l generalizing prev i with
  | nil => simp at h
  | cons rc t ih =>
    cases i with
    | zero => simp [valueScan]
    | succ j =>
      have hj : j < t.length := by simpa using h
      simpa [valueScan] using ih (prev * (1 + rc.1) + rc.2) j hj

lemma valueScan_cons_getD (a b : List ℚ) (init : ℚ) (hab : a.length = b.length)
    (i : Nat) (hi : i < a.length) :
    (init :: valueScan init (a.zip b)).getD (i + 1) 0 =
      (init :: valueScan init (a.zip b)).getD i 0 * (1 + a.getD i 0) +
        b.getD i 0 := by
  have hib : i < b.length := hab ▸ hi
  have hiz : i < (a.zip b).length := by rw [List.length_zip]; omega
  rw [List.getD_cons_succ, valueScan_getD _ init i hiz, getD_zip a b i hi hib]

/-! ## C1: the value recurrence of the growth trajectory -/

/-- C1: for every non-empty portfolio return series and any initial
investment and monthly contribution, the trajectory satisfies
`portfolioValue[0] = initialInvestment` and, for `i > 0`,
`portfolioValue[i] = portfolioValue[i-1] * (1 + dailyReturn[i]) +
contributionOnDate[i]`: the day's contribution is added only after the day's
return is applied to the prior value. -/
theorem simulate_growth_value_recurrence (rows : Series) (init mc : ℚ)
    (hne : rows ≠ []) :
    ∃ tr, simulate_growth (some rows) init mc = SimResult.ok tr ∧
      tr.portfolio_value.length = rows.length ∧
      tr.returns.length = rows.length ∧
      tr.contribution.length = rows.length ∧
      tr.portfolio_value.getD 0 0 = init ∧
      ∀ i, i + 1 < rows.length →
        tr.portfolio_value.getD (i + 1) 0 =
          tr.portfolio_value.getD i 0 * (1 + tr.returns.getD (i + 1) 0) +
            tr.contribution.getD (i + 1) 0 := by
  match rows with
  | [] => exact absurd rfl hne
  | (d0, r0) :: rest =>
    simp only [simulate_growth]
    refine ⟨_, rfl, ?_, ?_, ?_, rfl, ?_⟩
    · simp [valueScan_length, List.length_zip]
    · simp
    · simp
    · intro i hi
      have hi' : i < rest.length := by simpa using hi
      have hmap : i < (rest.map Prod.snd).length := by simpa using hi'
      simp only [List.getD_cons_succ]
      have := valueScan_cons_getD (rest.map Prod.snd)
        (rest.map fun p =>
          if p.1 ∈ scheduledDates (d0 :: rest.map Prod.fst) d0
              ((d0 :: rest.map Prod.fst).getLastD d0) then mc else 0)
        init (by simp) i hmap
      simpa only [List.getD_cons_succ] using this

/-- Witness for C1 at a concrete one-row series. -/
theorem simulate_growth_value_recurrence_witness :
    ∃ tr, simulate_growth (some [((⟨2020, 1, 15⟩ : Date), (0 : ℚ))]) 5 0 =
        SimResult.ok tr ∧
      tr.portfolio_value.length = 1 ∧
      tr.returns.length = 1 ∧
      tr.contribution.length = 1 ∧
      tr.portfolio_value.getD 0 0 = 5 ∧
      ∀ i, i + 1 < 1 →
        tr.portfolio_value.getD (i + 1) 0 =
          tr.portfolio_value.getD i 0 * (1 + tr.returns.getD (i + 1) 0) +
            tr.contribution.getD (i + 1) 0 :=
  simulate_growth_value_recurrence [(⟨2020, 1, 15⟩, 0)] 5 0 (by decide)

/-! ## C2: the monthly-contribution schedule -/

/-- C2 fails on the code: on the spec's 13-month scenario
(`initialInvestment = 10000`, `monthlyContribution = 500`, one trading date
per month) the loop of src/app.py lines 53-72 advances `current_date` by two
months per iteration (`next_month + DateOffset(months=1)`), so only the
alternating months Feb/Apr/Jun/Aug/Oct/Dec 2020 receive a contribution:
6 events, final cumulative contribution 13000, not the 12 events / 16000 the
claim and the spec scenario require. -/
theorem simulate_growth_13month_alternating :
    contribOf (simulate_growth (some rows13) 10000 500) =
      [10000, 500, 0, 500, 0, 500, 0, 500, 0, 500, 0, 500, 0] ∧
    cumContribOf (simulate_growth (some rows13) 10000 500) =
      [10000, 10500, 10500, 11000, 11000, 11500, 11500, 12000, 12000, 12500,
       12500, 13000, 13000] ∧
    (cumContribOf (simulate_growth (some rows13) 10000 500)).getLastD 0 ≠
      16000 := by
  have h : contribOf (simulate_growth (some rows13) 10000 500) =
      [10000, 500, 0, 500, 0, 500, 0, 500, 0, 500, 0, 500, 0] := by decide
  have h2 : cumContribOf (simulate_growth (some rows13) 10000 500) =
      cumsum (contribOf (simulate_growth (some rows13) 10000 500)) := rfl
  have hcum : cumContribOf (simulate_growth (some rows13) 10000 500) =
      [10000, 10500, 10500, 11000, 11000, 11500, 11500, 12000, 12000, 12500,
       12500, 13000, 13000] := by
    rw [h2, h]; norm_num [cumsum, cumsumAux]
  exact ⟨h, hcum, by rw [hcum]; decide⟩

/-! ## C8: behaviour on an empty series -/

/-- C8 counterexample: on a zero-observation series the code does not return
the structured `EmptySeries` failure; the only `None` check is
`portfolio_data is None` (src/app.py line 35), and `investments.iloc[0, ...]`
(line 47) raises an unstructured `IndexError`. -/
theorem simulate_growth_empty_not_emptySeries :
    simulate_growth (some ([] : Series)) 10000 500 ≠ SimResult.emptySeries ∧
    simulate_growth (some ([] : Series)) 10000 500 = SimResult.indexError := by
  exact ⟨by decide, rfl⟩

/-- C8 amended: `simulate_growth` returns its structured failure (`None`)
exactly when the input is `None`; on a present but empty series it raises an
unstructured `IndexError` instead of a structured `EmptySeries` result. -/
theorem simulate_growth_empty_index_error (init mc : ℚ) :
    simulate_growth (some ([] : Series)) init mc = SimResult.indexError ∧
    simulate_growth none init mc = SimResult.missingData :=
  ⟨rfl, rfl⟩

/-! ## C9: no parameter validation -/

/-- C9 counterexample: a call with a negative initial investment and a
negative monthly contribution is not rejected; the compounding formula is
applied to the invalid values and a trajectory is returned
(src/app.py has no parameter check in `simulate_growth`). -/
theorem simulate_growth_accepts_invalid_params :
    ∃ tr, simulate_growth (some [((⟨2020, 1, 15⟩ : Date), (1 : ℚ) / 100)])
        (-100) (-50) = SimResult.ok tr ∧
      tr.portfolio_value = [-100] := by
  exact ⟨_, rfl, by decide⟩

/-- C9 amended: `simulate_growth` validates nothing beyond
`portfolio_data is None`; for every non-empty series and arbitrary rational
parameters (including non-positive initial investments and negative
contributions) it produces a trajectory whose first value is the initial
investment. -/
theorem simulate_growth_no_validation (rows : Series) (init mc : ℚ)
    (hne : rows ≠ []) :
    ∃ tr, simulate_growth (some rows) init mc = SimResult.ok tr ∧
      tr.portfolio_value.getD 0 0 = init := by
  match rows with
  | [] => exact absurd rfl hne
  | (d0, r0) :: rest => exact ⟨_, rfl, rfl⟩

/-- Witness for the amended C9 at an invalid parameter pair. -/
theorem simulate_growth_no_validation_witness :
    ∃ tr, simulate_growth (some [((⟨2020, 1, 15⟩ : Date), (1 : ℚ) / 100)])
        (-7) (-3) = SimResult.ok tr ∧
      tr.portfolio_value.getD 0 0 = -7 :=
  simulate_growth_no_validation [(⟨2020, 1, 15⟩, 1 / 100)] (-7) (-3) (by decide)

/-! ## C7: unavailable tickers are skipped; failure only when all are missing -/

/-- Once the result frame exists, every remaining step keeps it existing. -/
lemma foldl_aggStep_isSome (provider : String → Option Series)
    (l : List (String × ℚ)) :
    ∀ a : Frame, ∃ a2, l.foldl (aggStep provider) (some a) = some a2 := by
  induction l with
  | nil => intro a; exact ⟨a, rfl⟩
  | cons tw t ih =>
    intro a
    rcases hp : provider tw.1 with _ | s
    · simpa [List.foldl, aggStep, hp] using ih a
    · simpa [List.foldl, aggStep, hp] using ih _

/-- Skipped tickers change nothing: the fold over a portfolio equals the fold
over its available tickers only. -/
lemma foldl_aggStep_filter (provider : String → Option Series)
    (l : List (String × ℚ)) :
    ∀ acc, l.foldl (aggStep provider) acc =
      (l.filter fun tw => (provider tw.1).isSome).foldl (aggStep provider) acc := by
  induction l with
  | nil => intro acc; rfl
  | cons tw t ih =>
    intro acc
    rcases hp : provider tw.1 with _ | s
    · rw [List.foldl_cons, List.filter_cons]
      simp only [hp, Option.isSome_none, Bool.false_eq_true, if_false]
      rw [show aggStep provider acc tw = acc by simp [aggStep, hp]]
      exact ih acc
    · rw [List.foldl_cons, List.filter_cons]
      simp only [hp, Option.isSome_some, if_true]
      rw [List.foldl_cons]
      exact ih _

/-- C7: a ticker whose series is entirely unavailable is skipped and the
aggregation continues with the remaining tickers (the result equals the
aggregation of the available tickers alone), and `get_portfolio_data` returns
its failure result `None` if and only if no ticker of the portfolio yields
any data. -/
theorem get_portfolio_data_skip_and_none_iff
    (portfolio : List (String × ℚ)) (provider : String → Option Series) :
    (get_portfolio_data portfolio provider =
      get_portfolio_data (portfolio.filter fun tw => (provider tw.1).isSome)
        provider) ∧
    (get_portfolio_data portfolio provider = none ↔
      ∀ tw ∈ portfolio, provider tw.1 = none) := by
  constructor
  · exact foldl_aggStep_filter provider portfolio none
  · induction portfolio with
    | nil => simp [get_portfolio_data]
    | cons tw t ih =>
      rcases hp : provider tw.1 with _ | s
      · rw [get_portfolio_data, List.foldl_cons,
          show aggStep provider none tw = none by simp [aggStep, hp]]
        rw [get_portfolio_data] at ih
        rw [ih]
        simp [hp]
      · rw [get_portfolio_data, List.foldl_cons,
          show aggStep provider none tw =
            some ((weightedCol tw.2 s).map fun p => (p.1, [some p.2])) by
              simp [aggStep, hp]]
        obtain ⟨a2, ha2⟩ := foldl_aggStep_isSome provider t _
        rw [ha2]
        constructor
        · intro h; cases h
        · intro h
          have := h tw (List.mem_cons_self _ _)
          rw [hp] at this
          cases this

/-! ## C4: the cumulative-return formula -/

lemma cumprodAux_length (l : List ℚ) : ∀ acc, (cumprodAux acc l).length = l.length := by
  induction l with
  | nil => intro acc; rfl
  | cons r t ih => intro acc; simp [cumprodAux, ih]

lemma cumprodAux_getD (l : List ℚ) :
    ∀ (acc : ℚ) (i : Nat), i < l.length →
      (cumprodAux acc l).getD i 0 =
        acc * ((l.take (i + 1)).map fun r => 1 + r).prod := by
  induction l with
  | nil => intro acc i h; simp at h
  | cons r t ih =>
    intro acc i h
    cases i with
    | zero => simp [cumprodAux]
    | succ j =>
      have hj : j < t.length := by simpa using h
      simp only [cumprodAux, List.getD_cons_succ]
      rw [ih (acc * (1 + r)) j hj]
      rw [show (r :: t).take (j + 1 + 1) = r :: t.take (j + 1) from rfl]
      simp [List.prod_cons, mul_assoc]

lemma getD_map100 (l : List ℚ) :
    ∀ i, i < l.length → (l.map fun q => q * 100).getD i 0 = l.getD i 0 * 100 := by
  induction l with
  | nil => intro i h; simp at h
  | cons x t ih =>
    intro i h
    cases i with
    | zero => rfl
    | succ j => simpa using ih j (by simpa using h)

/-- C4: for every aggregation result, the cumulative return at every index
equals 100 times the running product of `(1 + return)` over all returns up to
and including that index; in particular the first date's own return is
included in the first cumulative value. -/
theorem cumulative_return_formula (portfolio : List (String × ℚ))
    (provider : String → Option Series) (f : Frame)
    (_hf : get_portfolio_data portfolio provider = some f)
    (i : Nat) (hi : i < f.length) :
    (cumulative_return f).getD i 0 =
      100 * (((portfolio_return f).take (i + 1)).map fun r => 1 + r).prod := by
  have hlen : (portfolio_return f).length = f.length := by
    simp [portfolio_return]
  unfold cumulative_return
  rw [getD_map100 _ i (by rw [cumprodAux_length]; omega),
    cumprodAux_getD _ 1 i (by omega)]
  ring

/-- Witness for C4 at a concrete one-ticker aggregation. -/
theorem cumulative_return_formula_witness :
    (cumulative_return fW).getD 0 0 =
      100 * (((portfolio_return fW).take (0 + 1)).map fun r => 1 + r).prod :=
  cumulative_return_formula [("A", 1)] provW fW rfl 0 (by decide)

/-! ## C3: the join is a left join on the first available ticker, not a union -/

/-- C3 counterexample: with ticker A available on Jan 2 and Jan 3 and ticker
B available on Jan 2 and Jan 4, the aggregated frame's dates are exactly A's
dates; Jan 4, present in B's series, does not appear as a row, so the
aggregation does not union the weighted columns by date. -/
theorem get_portfolio_data_not_union :
    datesOf (get_portfolio_data pCE provCE) =
      [⟨2020, 1, 2⟩, ⟨2020, 1, 3⟩] ∧
    (⟨2020, 1, 4⟩ : Date) ∈ seriesB.map Prod.fst ∧
    (⟨2020, 1, 4⟩ : Date) ∉ datesOf (get_portfolio_data pCE provCE) := by
  refine ⟨?_, ?_, ?_⟩ <;> decide

lemma foldl_aggStep_none (provider : String → Option Series) :
    ∀ pre : List (String × ℚ), (∀ tw ∈ pre, provider tw.1 = none) →
      pre.foldl (aggStep provider) none = none := by
  intro pre
  induction pre with
  | nil => intro _; rfl
  | cons tw t ih =>
    intro hpre
    rw [List.foldl_cons, show aggStep provider none tw = none by
      simp [aggStep, hpre tw (List.mem_cons_self _ _)]]
    exact ih fun x hx => hpre x (List.mem_cons_of_mem _ hx)

lemma foldl_aggStep_joinAll (provider : String → Option Series)
    (post : List (String × ℚ)) :
    ∀ a : Frame, post.foldl (aggStep provider) (some a) =
      some (joinAll a (availCols post provider)) := by
  induction post with
  | nil => intro a; rfl
  | cons tw t ih =>
    intro a
    rcases hp : provider tw.1 with _ | s
    · rw [List.foldl_cons, show aggStep provider (some a) tw = some a by
        simp [aggStep, hp]]
      rw [ih a]
      simp [availCols, List.filterMap_cons, hp]
    · rw [List.foldl_cons, show aggStep provider (some a) tw =
        some (joinCol a (weightedCol tw.2 s)) by simp [aggStep, hp]]
      rw [ih (joinCol a (weightedCol tw.2 s))]
      simp only [availCols, List.filterMap_cons, hp, Option.map_some]
      rfl

lemma joinAll_explicit (cols : List Series) :
    ∀ a : Frame, joinAll a cols =
      a.map fun row => (row.1, row.2 ++ cols.map fun c => lookupDate c row.1) := by
  induction cols with
  | nil => intro a; simp [joinAll]
  | cons c cs ih =>
    intro a
    rw [show joinAll a (c :: cs) = joinAll (joinCol a c) cs from rfl,
      ih (joinCol a c), joinCol, List.map_map]
    refine List.map_congr_left fun row _ => ?_
    simp [Function.comp, List.append_assoc]

/-- C3 amended: the aggregation left-joins onto the first available ticker's
date index.  With the unavailable prefix `pre` skipped, the result frame is
exactly the first available ticker's series, each row carrying that ticker's
weighted return followed by a label lookup into every later available
ticker's weighted column (`none`, i.e. NaN, when the ticker lacks the date,
which the row sum `sumOpt` counts as 0); in particular the result's dates are
the first available ticker's dates, and dates present only in later tickers
are dropped. -/
theorem get_portfolio_data_left_join (pre post : List (String × ℚ))
    (t0 : String) (w0 : ℚ) (provider : String → Option Series) (s0 : Series)
    (hpre : ∀ tw ∈ pre, provider tw.1 = none) (h0 : provider t0 = some s0) :
    ∃ f, get_portfolio_data (pre ++ (t0, w0) :: post) provider = some f ∧
      f = (s0.map fun p =>
        (p.1, some (p.2 * w0) :: (availCols post provider).map fun c =>
          lookupDate c p.1)) ∧
      f.map Prod.fst = s0.map Prod.fst := by
  have key : get_portfolio_data (pre ++ (t0, w0) :: post) provider =
      some (s0.map fun p =>
        (p.1, some (p.2 * w0) :: (availCols post provider).map fun c =>
          lookupDate c p.1)) := by
    unfold get_portfolio_data
    rw [List.foldl_append, foldl_aggStep_none provider pre hpre,
      List.foldl_cons,
      show aggStep provider none (t0, w0) =
        some ((weightedCol w0 s0).map fun p => (p.1, [some p.2])) by
          simp [aggStep, h0],
      foldl_aggStep_joinAll, joinAll_explicit, weightedCol,
      List.map_map, List.map_map]
    refine congrArg some (List.map_congr_left fun p _ => ?_)
    simp [Function.comp]
  refine ⟨_, key, rfl, ?_⟩
  rw [List.map_map]
  rfl

/-- Witness for the amended C3: an unavailable first ticker Z is skipped, A
seeds the frame, B is left-joined. -/
theorem get_portfolio_data_left_join_witness :
    ∃ f, get_portfolio_data
        ([("Z", (1 : ℚ))] ++ ("A", (1 : ℚ)/2) :: [("B", (1 : ℚ)/2)]) provCE =
        some f ∧
      f = (seriesA.map fun p =>
        (p.1, some (p.2 * ((1 : ℚ)/2)) ::
          (availCols [("B", (1 : ℚ)/2)] provCE).map fun c =>
            lookupDate c p.1)) ∧
      f.map Prod.fst = seriesA.map Prod.fst :=
  get_portfolio_data_left_join [("Z", 1)] [("B", (1 : ℚ)/2)] "A" ((1 : ℚ)/2)
    provCE seriesA (by decide) rfl

/-! ## C5: the statistics formulas and the degenerate-risk policy -/

/-- C5 counterexample: for a single-observation return series pandas'
`Series.std` (sample standard deviation, `ddof = 1`) is NaN, `NaN != 0` holds
in Python, and the division propagates NaN into the Sharpe ratio — the
statistics are not NaN-free on every non-empty series. -/
theorem sharpe_single_obs_nan :
    annual_risk [(1 : ℚ) / 100] = none ∧ sharpe [(1 : ℚ) / 100] = none := by
  have hv : sampleVar [(1 : ℚ) / 100] = none := by
    rw [sampleVar, if_neg (by norm_num)]
  have hr : annual_risk [(1 : ℚ) / 100] = none := by
    rw [annual_risk, hv]; rfl
  refine ⟨hr, ?_⟩
  unfold sharpe
  rw [hr]

/-- C5 amended: for every return series with at least two observations the
statistics calculator returns `annualReturn = (1 + mean) ^ 252 - 1`,
`annualRisk = sqrt(sampleVariance) * sqrt 252` (a genuine real number, never
NaN), and a Sharpe ratio equal to `annualReturn / annualRisk` when
`annualRisk ≠ 0` and exactly 0 when `annualRisk = 0`; for a single
observation the sample standard deviation and the Sharpe ratio are NaN. -/
theorem stats_formulas (rs : List ℚ) (h2 : 2 ≤ rs.length) :
    ∃ risk : ℝ, annual_risk rs = some risk ∧ 0 ≤ risk ∧
      (∃ v : ℚ, sampleVar rs = some v ∧
        risk = Real.sqrt (v : ℝ) * Real.sqrt 252) ∧
      annual_return rs = (1 + mean rs) ^ 252 - 1 ∧
      (risk = 0 → sharpe rs = some 0) ∧
      (risk ≠ 0 → sharpe rs = some ((annual_return rs : ℝ) / risk)) := by
  obtain ⟨v, hv⟩ : ∃ v, sampleVar rs = some v :=
    ⟨_, by rw [sampleVar, if_pos h2]⟩
  have hrisk : annual_risk rs = some (Real.sqrt (v : ℝ) * Real.sqrt 252) := by
    rw [annual_risk, hv]; rfl
  have hsh : sharpe rs =
      if (Real.sqrt (v : ℝ) * Real.sqrt 252 : ℝ) = 0 then some 0
      else some ((annual_return rs : ℝ) /
        (Real.sqrt (v : ℝ) * Real.sqrt 252)) := by
    unfold sharpe
    rw [hrisk]
  refine ⟨_, hrisk,
    mul_nonneg (Real.sqrt_nonneg _) (Real.sqrt_nonneg _),
    ⟨v, hv, rfl⟩, rfl, ?_, ?_⟩
  · intro h0
    rw [hsh, if_pos h0]
  · intro hne
    rw [hsh, if_neg hne]

/-- Witness for the amended C5 at the constant series `[0, 0]`. -/
theorem stats_formulas_witness :
    ∃ risk : ℝ, annual_risk [(0 : ℚ), 0] = some risk ∧ 0 ≤ risk ∧
      (∃ v : ℚ, sampleVar [(0 : ℚ), 0] = some v ∧
        risk = Real.sqrt (v : ℝ) * Real.sqrt 252) ∧
      annual_return [(0 : ℚ), 0] = (1 + mean [(0 : ℚ), 0]) ^ 252 - 1 ∧
      (risk = 0 → sharpe [(0 : ℚ), 0] = some 0) ∧
      (risk ≠ 0 → sharpe [(0 : ℚ), 0] =
        some ((annual_return [(0 : ℚ), 0] : ℝ) / risk)) :=
  stats_formulas [0, 0] (by decide)

/-! ## C6: the maximum drawdown is nonpositive, zero iff non-decreasing -/

lemma foldl_min_le_init (t : List ℚ) : ∀ x : ℚ, t.foldl min x ≤ x := by
  induction t with
  | nil => intro x; exact le_refl x
  | cons z t ih =>
    intro x
    calc t.foldl min (min x z) ≤ min x z := ih (min x z)
      _ ≤ x := min_le_left x z

lemma foldl_min_le_mem (t : List ℚ) : ∀ x y : ℚ, y ∈ t → t.foldl min x ≤ y := by
  induction t with
  | nil => intro x y hy; cases hy
  | cons z t ih =>
    intro x y hy
    rcases List.mem_cons.mp hy with rfl | hy2
    · calc t.foldl min (min x y) ≤ min x y := foldl_min_le_init t _
        _ ≤ y := min_le_right x y
    · exact ih (min x z) y hy2

lemma foldl_min_mem (t : List ℚ) : ∀ x : ℚ, t.foldl min x ∈ x :: t := by
  induction t with
  | nil => intro x; exact List.mem_cons_self _ _
  | cons z t ih =>
    intro x
    rw [List.foldl_cons]
    rcases List.mem_cons.mp (ih (min x z)) with he | he
    · rcases min_choice x z with hc | hc
      · rw [he, hc]; exact List.mem_cons_self _ _
      · rw [he, hc]
        exact List.mem_cons_of_mem _ (List.mem_cons_self _ _)
    · exact List.mem_cons_of_mem _ (List.mem_cons_of_mem _ he)

/-- Every drawdown entry is nonpositive when the running-max accumulator and
the values are positive. -/
lemma drawdown_tail_nonpos (t : List ℚ) :
    ∀ m : ℚ, 0 < m →
      ∀ d ∈ List.zipWith (fun c mx => c / mx - 1) t (cummaxAux m t), d ≤ 0 := by
  induction t with
  | nil => intro m _ d hd; cases hd
  | cons x t ih =>
    intro m hm d hd
    have hmx : 0 < max m x := lt_of_lt_of_le hm (le_max_left m x)
    simp only [cummaxAux, List.zipWith_cons_cons] at hd
    rcases List.mem_cons.mp hd with rfl | hd2
    · have hle : x / max m x ≤ 1 := (div_le_one hmx).mpr (le_max_right m x)
      linarith
    · exact ih (max m x) hmx d hd2

/-- The drawdown tail is identically zero exactly when the values form a
nondecreasing chain above the accumulator. -/
lemma drawdown_tail_zero_iff (t : List ℚ) :
    ∀ m : ℚ, 0 < m → (∀ x ∈ t, 0 < x) →
      ((∀ d ∈ List.zipWith (fun c mx => c / mx - 1) t (cummaxAux m t), d = 0) ↔
        List.Chain (· ≤ ·) m t) := by
  induction t with
  | nil =>
    intro m _ _
    constructor
    · intro _; exact List.Chain.nil
    · intro _ d hd; cases hd
  | cons x t ih =>
    intro m hm hpos
    have hx : 0 < x := hpos x (List.mem_cons_self _ _)
    have hmx : 0 < max m x := lt_of_lt_of_le hm (le_max_left m x)
    have hposT : ∀ y ∈ t, 0 < y := fun y hy => hpos y (List.mem_cons_of_mem _ hy)
    simp only [cummaxAux, List.zipWith_cons_cons]
    constructor
    · intro hall
      have h0 : x / max m x - 1 = 0 := hall _ (List.mem_cons_self _ _)
      have h1 : x / max m x = 1 := by linarith
      have h2 : x = max m x := (div_eq_one_iff_eq (ne_of_gt hmx)).mp h1
      have hmlex : m ≤ x := max_eq_right_iff.mp h2.symm
      refine List.Chain.cons hmlex ?_
      have htail : ∀ d ∈ List.zipWith (fun c mx => c / mx - 1) t
          (cummaxAux x t), d = 0 := by
        intro d hd
        refine hall d (List.mem_cons_of_mem _ ?_)
        rw [max_eq_right hmlex]
        exact hd
      exact (ih x hx hposT).mp htail
    · intro hch
      cases hch with
      | cons hmlex hct =>
        have h1 : max m x = x := max_eq_right hmlex
        intro d hd
        rw [h1] at hd
        rcases List.mem_cons.mp hd with rfl | hd2
        · rw [div_self (ne_of_gt hx)]
          ring
        · exact (ih x hx hposT).mpr hct d hd2

/-- C6: for every non-empty positive cumulative-return series, the maximum
drawdown `min (cum / cummax cum - 1)` is defined, nonpositive, and equal to
zero exactly when the series is non-decreasing throughout. -/
theorem max_drawdown_nonpos_iff (cum : List ℚ) (hne : cum ≠ [])
    (hpos : ∀ x ∈ cum, 0 < x) :
    ∃ md, max_drawdown cum = some md ∧ md ≤ 0 ∧
      (md = 0 ↔ List.Chain' (· ≤ ·) cum) := by
  match cum, hne with
  | x :: t, _ =>
    have hx : 0 < x := hpos x (List.mem_cons_self _ _)
    have hposT : ∀ y ∈ t, 0 < y := fun y hy => hpos y (List.mem_cons_of_mem _ hy)
    have hx0 : x / x - 1 = 0 := by rw [div_self (ne_of_gt hx)]; ring
    have hdd : drawdowns (x :: t) = (x / x - 1) ::
        List.zipWith (fun c mx => c / mx - 1) t (cummaxAux x t) := by
      simp [drawdowns, cummax]
    have hmd : max_drawdown (x :: t) =
        some ((List.zipWith (fun c mx => c / mx - 1) t
          (cummaxAux x t)).foldl min (x / x - 1)) := by
      rw [max_drawdown, hdd]; rfl
    set rest := List.zipWith (fun c mx => c / mx - 1) t (cummaxAux x t) with hrest
    refine ⟨rest.foldl min (x / x - 1), hmd, ?_, ?_, ?_⟩
    · -- the minimum is a member of the drawdown list, all of whose entries
      -- are nonpositive
      rcases List.mem_cons.mp (foldl_min_mem rest (x / x - 1)) with he | he
      · rw [he, hx0]
      · exact drawdown_tail_nonpos t x hx _ he
    · intro h0
      show List.Chain (· ≤ ·) x t
      refine (drawdown_tail_zero_iff t x hx hposT).mp ?_
      intro d hd
      have hled : rest.foldl min (x / x - 1) ≤ d := foldl_min_le_mem rest _ d hd
      have : d ≤ 0 := drawdown_tail_nonpos t x hx d hd
      rw [h0] at hled
      linarith
    · intro hch
      have hall : ∀ d ∈ rest, d = 0 :=
        (drawdown_tail_zero_iff t x hx hposT).mpr hch
      rcases List.mem_cons.mp (foldl_min_mem rest (x / x - 1)) with he | he
      · rw [he, hx0]
      · exact hall _ he

/-- Witness for C6 on the positive series `[100, 90, 95]`, whose maximum
drawdown is negative because the series decreases. -/
theorem max_drawdown_nonpos_iff_witness :
    ∃ md, max_drawdown [(100 : ℚ), 90, 95] = some md ∧ md ≤ 0 ∧
      (md = 0 ↔ List.Chain' (· ≤ ·) [(100 : ℚ), 90, 95]) :=
  max_drawdown_nonpos_iff [100, 90, 95] (by decide)
    (by intro x hx; fin_cases hx <;> norm_num)

/-! ## C10: catalog weights are positive and sum to one -/

/-- C10: every portfolio of the static catalog has strictly positive ticker
weights summing exactly to 1, so on a date where every ticker has data the
portfolio daily return is a convex combination of the per-ticker returns. -/
theorem portfolios_weights_convex (pf : String × List (String × ℚ))
    (hpf : pf ∈ portfolios) :
    (∀ tw ∈ pf.2, 0 < tw.2) ∧ (pf.2.map Prod.snd).sum = 1 := by
  fin_cases hpf <;>
    exact ⟨by intro tw htw; fin_cases htw <;> norm_num, by norm_num⟩

/-- Witness for C10 at the two-fund portfolio. -/
theorem portfolios_weights_convex_witness :
    (∀ tw ∈ [("VT", (60 : ℚ)/100), ("BND", (40 : ℚ)/100)], 0 < tw.2) ∧
      (([("VT", (60 : ℚ)/100), ("BND", (40 : ℚ)/100)].map Prod.snd).sum = 1) :=
  portfolios_weights_convex
    ("Two-fund Portfolio", [("VT", 60/100), ("BND", 40/100)])
    (List.mem_cons_self _ _)
